import Mathlib

/-!
Verification development for a small blog server (Rust, axum + pulldown-cmark).

The embedding works over `List Char`: Rust strings are UTF-8 byte sequences,
but every pattern the program searches for (`\(`, `\)`, `\[`, `\]`, the
template placeholders, `</body>`) is pure ASCII, and ASCII bytes never occur
inside a multi-byte UTF-8 code point, so byte-index scans in the source align
with code-point boundaries and a code-point (`Char`) list model is exact.

Loops with a strictly advancing index are embedded as fuel recursion with the
input length as fuel (the Rust loop advances `i` by at least one byte per
iteration, so `input.len()` iterations always suffice).
-/

namespace BlogServer

/-- Prefix test on char lists: `startsWithL s pat` is `str::starts_with`. -/
def startsWithL : List Char → List Char → Bool
  | _, [] => true
  | [], _ :: _ => false
  | a :: as, b :: bs => a == b && startsWithL as bs

/-- Embedding of `str::find(pat)` on the remainder `s`, returning the content
before the first occurrence of `pat` together with the remainder after it
(`input[content_start..content_end]` and the text after `i = content_end +
close.len()` in the source). `none` when `pat` does not occur. -/
def findSplit (pat : List Char) : List Char → Option (List Char × List Char)
  | [] => if startsWithL [] pat then some ([], []) else none
  | c :: rest =>
    if startsWithL (c :: rest) pat then some ([], (c :: rest).drop pat.length)
    else (findSplit pat rest).map (fun p => (c :: p.1, p.2))

/-- Embedding of `markdown.rs::delimiter_at`: the source slices `&input[index..]`
and checks prefixes; here the argument is already that tail. Returns
`(open, close, display_mode)`. -/
def delimiter_at (tail : List Char) : Option (List Char × List Char × Bool) :=
  if startsWithL tail ['\\', '('] then some (['\\', '('], (['\\', ')'], false))
  else if startsWithL tail ['\\', '['] then some (['\\', '['], (['\\', ']'], true))
  else none

/-- One fuel-counted pass of the `while i < input.len()` loop of
`markdown.rs::normalize_latex_delimiters`. Each loop iteration advances `i`
by at least one code point, so fuel `input.length` suffices; the fuel-zero
branch is unreachable from `normalize_latex_delimiters` below. -/
def normGo : Nat → List Char → List Char
  | _, [] => []
  | 0, _ :: _ => []
  | fuel + 1, c :: rest =>
    match delimiter_at (c :: rest) with
    | some (op, close, display_mode) =>
      match findSplit close ((c :: rest).drop op.length) with
      | some (content, after) =>
        (if display_mode || content.contains '\n' then
          ['$', '$'] ++ content ++ ['$', '$']
        else
          ['$'] ++ content ++ ['$']) ++ normGo fuel after
      | none => c :: normGo fuel rest
    | none => c :: normGo fuel rest

/-- Embedding of `markdown.rs::normalize_latex_delimiters`. -/
def normalize_latex_delimiters (input : List Char) : List Char :=
  normGo input.length input

/-- String-level wrapper for `normalize_latex_delimiters`. -/
def normalizeStr (s : String) : String :=
  (normalize_latex_delimiters s.toList).asString

/-- Spec-side rendering of the delimiter-normalization pass, written from the
spec's words: at each position, if the substring begins with `\(` or `\[`,
find the earliest matching close in the remainder; if found, emit `$…$` (for
`\(…\)` whose content has no newline) or `$$…$$` (for `\[…\]`, or for `\(…\)`
whose content contains a newline) and resume after the close; if no close is
found, copy the character literally and advance one code point; non-delimiter
input is copied unchanged one code point at a time. -/
def normSpecGo : Nat → List Char → List Char
  | _, [] => []
  | 0, _ :: _ => []
  | fuel + 1, '\\' :: '(' :: rest =>
    match findSplit ['\\', ')'] rest with
    | some (content, after) =>
      (if content.contains '\n' then ['$', '$'] ++ content ++ ['$', '$']
       else ['$'] ++ content ++ ['$']) ++ normSpecGo fuel after
    | none => '\\' :: normSpecGo fuel ('(' :: rest)
  | fuel + 1, '\\' :: '[' :: rest =>
    match findSplit ['\\', ']'] rest with
    | some (content, after) =>
      ['$', '$'] ++ content ++ ['$', '$'] ++ normSpecGo fuel after
    | none => '\\' :: normSpecGo fuel ('[' :: rest)
  | fuel + 1, c :: rest => c :: normSpecGo fuel rest

/-- Spec-side scan over a whole input. -/
def normalizeSpecScan (input : List Char) : List Char :=
  normSpecGo input.length input

/-- A successful prefix test needs at least the pattern's length. -/
theorem startsWithL_length {s pat : List Char} (h : startsWithL s pat = true) :
    pat.length ≤ s.length := by
  induction pat generalizing s with
  | nil => simp
  | cons b bs ih =>
    cases s with
    | nil => simp [startsWithL] at h
    | cons a as =>
      simp only [startsWithL, Bool.and_eq_true] at h
      simpa [List.length_cons, Nat.succ_le_succ_iff] using ih h.2

/-- Length bookkeeping for `findSplit`: the input splits into content,
pattern, and remainder. -/
theorem findSplit_some_length {pat s content after : List Char}
    (h : findSplit pat s = some (content, after)) :
    s.length = content.length + pat.length + after.length := by
  induction s generalizing content with
  | nil =>
    simp only [findSplit] at h
    by_cases hp : startsWithL [] pat = true
    · cases pat with
      | nil => simp_all [findSplit]
      | cons b bs => simp [startsWithL] at hp
    · simp [hp] at h
  | cons c rest ih =>
    simp only [findSplit] at h
    by_cases hp : startsWithL (c :: rest) pat = true
    · have hlen := startsWithL_length hp
      simp only [List.length_cons] at hlen
      rw [if_pos hp] at h
      cases h
      simp only [List.length_nil, List.length_drop, List.length_cons]
      omega
    · rw [if_neg hp] at h
      cases hr : findSplit pat rest with
      | none => simp [hr] at h
      | some p =>
        cases p with
        | mk c1 a1 =>
          simp only [hr, Option.map_some', Option.some.injEq, Prod.mk.injEq] at h
          obtain ⟨h1, h2⟩ := h
          subst h1
          subst h2
          have := ih hr
          simp only [List.length_cons]
          omega

/-- Scanning for an opener `\(` or `\[` anywhere in the input. -/
def hasDelimOpen : List Char → Bool
  | [] => false
  | c :: rest =>
    startsWithL (c :: rest) ['\\', '('] || startsWithL (c :: rest) ['\\', '['] ||
      hasDelimOpen rest

/-- When no opener occurs anywhere, the normalization loop copies the input
unchanged. -/
theorem normGo_of_no_open :
    ∀ (fuel : Nat) (s : List Char), s.length ≤ fuel → hasDelimOpen s = false →
      normGo fuel s = s := by
  intro fuel
  induction fuel with
  | zero =>
    intro s hl _
    have : s = [] := List.eq_nil_of_length_eq_zero (Nat.le_zero.mp hl)
    simp [this, normGo]
  | succ f ih =>
    intro s hl hno
    cases s with
    | nil => simp [normGo]
    | cons c rest =>
      simp only [hasDelimOpen, Bool.or_eq_false_iff] at hno
      obtain ⟨⟨h1, h2⟩, h3⟩ := hno
      have hd : delimiter_at (c :: rest) = none := by
        simp [delimiter_at, h1, h2]
      simp only [normGo, hd]
      have := ih rest (by simpa using Nat.le_of_succ_le_succ (by simpa using hl)) h3
      rw [this]

/-- Fuel-level equivalence of the source scan and the spec-side scan. -/
theorem normGo_eq_normSpecGo :
    ∀ (fuel : Nat) (s : List Char), s.length ≤ fuel →
      normGo fuel s = normSpecGo fuel s := by
  intro fuel
  induction fuel with
  | zero =>
    intro s hl
    have hs : s = [] := List.eq_nil_of_length_eq_zero (Nat.le_zero.mp hl)
    simp [hs, normGo, normSpecGo]
  | succ f ih =>
    intro s hl
    cases s with
    | nil => simp [normGo, normSpecGo]
    | cons c rest =>
      simp only [List.length_cons] at hl
      by_cases hc : c = '\\'
      · subst hc
        cases rest with
        | nil =>
          have hd : delimiter_at ['\\'] = none := by decide
          rw [normGo.eq_3, normSpecGo.eq_5]
          · simp only [hd, normGo.eq_1, normSpecGo.eq_1]
          · intro r _ h
            exact List.noConfusion h
          · intro r _ h
            exact List.noConfusion h
        | cons c2 rest2 =>
          simp only [List.length_cons] at hl
          by_cases h2 : c2 = '('
          · subst h2
            have hd : delimiter_at ('\\' :: '(' :: rest2) =
                some (['\\', '('], (['\\', ')'], false)) := by
              simp [delimiter_at, startsWithL]
            have hdrop : List.drop (['\\', '('] : List Char).length
                ('\\' :: '(' :: rest2) = rest2 := rfl
            rw [normGo.eq_3, normSpecGo.eq_3]
            simp only [hd, hdrop]
            cases hf : findSplit ['\\', ')'] rest2 with
            | some p =>
              obtain ⟨content, after⟩ := p
              have hlen := findSplit_some_length hf
              simp only [List.length_cons, List.length_nil] at hlen
              simp only [hf, Bool.false_or]
              have hih : normGo f after = normSpecGo f after := by
                apply ih
                omega
              rw [hih]
            | none =>
              simp only [hf]
              have hih : normGo f ('(' :: rest2) = normSpecGo f ('(' :: rest2) := by
                apply ih
                simp only [List.length_cons]
                omega
              rw [hih]
          · by_cases h3 : c2 = '['
            · subst h3
              have hd : delimiter_at ('\\' :: '[' :: rest2) =
                  some (['\\', '['], (['\\', ']'], true)) := by
                simp [delimiter_at, startsWithL]
              have hdrop : List.drop (['\\', '['] : List Char).length
                  ('\\' :: '[' :: rest2) = rest2 := rfl
              rw [normGo.eq_3, normSpecGo.eq_4]
              simp only [hd, hdrop]
              cases hf : findSplit ['\\', ']'] rest2 with
              | some p =>
                obtain ⟨content, after⟩ := p
                have hlen := findSplit_some_length hf
                simp only [List.length_cons, List.length_nil] at hlen
                simp only [hf, Bool.true_or, if_true]
                have hih : normGo f after = normSpecGo f after := by
                  apply ih
                  omega
                rw [hih, List.append_assoc, List.append_assoc]
              | none =>
                simp only [hf]
                have hih : normGo f ('[' :: rest2) = normSpecGo f ('[' :: rest2) := by
                  apply ih
                  simp only [List.length_cons]
                  omega
                rw [hih]
            · have hd : delimiter_at ('\\' :: c2 :: rest2) = none := by
                simp [delimiter_at, startsWithL, h2, h3]
              rw [normGo.eq_3, normSpecGo.eq_5]
              · simp only [hd]
                have hih : normGo f (c2 :: rest2) = normSpecGo f (c2 :: rest2) := by
                  apply ih
                  simp only [List.length_cons]
                  omega
                rw [hih]
              · intro r _ hr
                injection hr with hh _
                exact h2 hh
              · intro r _ hr
                injection hr with hh _
                exact h3 hh
      · rw [normGo.eq_3, normSpecGo.eq_5]
        · have hd : delimiter_at (c :: rest) = none := by
            simp [delimiter_at, startsWithL, hc]
          simp only [hd]
          have hih : normGo f rest = normSpecGo f rest := by
            apply ih
            omega
          rw [hih]
        · intro r hcc _
          exact hc hcc
        · intro r hcc _
          exact hc hcc

/-- C2: `normalize_latex_delimiters` implements exactly the specified
left-to-right scan: at each position an input beginning with an opener has
the earliest matching close sought in the remainder; on a find, the content
is emitted between `$`/`$$` pairs according to the opener and the presence of
a newline, resuming after the close; on a miss one code point is copied
literally; non-delimiter input is copied unchanged one code point at a time
(`normalizeSpecScan` is that specification, written independently of the
source's `delimiter_at` factoring). -/
theorem C2_normalize_latex_delimiters_matches_spec :
    ∀ (input : List Char), normalize_latex_delimiters input = normalizeSpecScan input :=
  fun input => normGo_eq_normSpecGo input.length input le_rfl

/-- C3 counterexample: the delimiter-normalization pass is not idempotent.
On the input `\[\(\]\)` the first pass yields `$$\($$\)` (the content of the
bracket pair itself contains an opener, which is emitted verbatim and pairs
with the trailing `\)` on the second pass), and the second pass yields
`$$$$$$`. -/
theorem C3_normalize_not_idempotent_counterexample :
    normalizeStr (normalizeStr "\\[\\(\\]\\)") ≠ normalizeStr "\\[\\(\\]\\)" := by
  decide

/-- C3 amended: the pass is idempotent on every input whose normalized output
no longer contains a `\(` or `\[` opener; a second application then copies
the output unchanged. -/
theorem C3_normalize_idempotent_when_no_opener_remains :
    ∀ (x : List Char), hasDelimOpen (normalize_latex_delimiters x) = false →
      normalize_latex_delimiters (normalize_latex_delimiters x) =
        normalize_latex_delimiters x :=
  fun _ h => normGo_of_no_open _ _ le_rfl h

/-- C3 witness: a concrete input whose normalized output has no opener left,
on which the amended idempotence theorem applies. -/
theorem C3_normalize_idempotent_witness :
    hasDelimOpen (normalize_latex_delimiters ("\\(a\\)".toList)) = false ∧
      normalize_latex_delimiters (normalize_latex_delimiters ("\\(a\\)".toList)) =
        normalize_latex_delimiters ("\\(a\\)".toList) :=
  ⟨by decide, C3_normalize_idempotent_when_no_opener_remains _ (by decide)⟩

/-!
Template substitution (`main.rs::render_with_layout`). Rust's `str::replace`
replaces every non-overlapping occurrence of the pattern, scanning left to
right; `replaceGo` is that scan as fuel recursion (each iteration consumes at
least one code point, so the input length is enough fuel). Every pattern the
program passes is a nonempty literal, so the degenerate empty-pattern case
(where Rust would interleave the replacement at every boundary) is mapped to
the identity and never exercised.
-/

/-- Post index entry (`models.rs::Post` / `main.rs::Post`). -/
structure Post where
  title : String
  slug : String
deriving DecidableEq, Repr

/-- Fuel-counted left-to-right replace-all scan; `replaceAll` below is
`str::replace` for the nonempty patterns the program uses. -/
def replaceGo : Nat → List Char → List Char → List Char → List Char
  | _, [], _, _ => []
  | 0, s, _, _ => s
  | fuel + 1, c :: rest, pat, rep =>
    if !pat.isEmpty && startsWithL (c :: rest) pat then
      rep ++ replaceGo fuel ((c :: rest).drop pat.length) pat rep
    else
      c :: replaceGo fuel rest pat rep

/-- Embedding of `str::replace` on char lists. -/
def replaceAll (s pat rep : List Char) : List Char :=
  replaceGo s.length s pat rep

/-- Embedding of `main.rs::HOT_RELOAD_SCRIPT` (the exact raw string, braces
escaped). -/
def HOT_RELOAD_SCRIPT : List Char :=
  ("\n<script>\n    const socket = new WebSocket(\"ws://\" + window.location.host + \"/ws\");\n    socket.onmessage = (event) => \x7b\n        if (event.data === \"reload\") \x7b\n            window.location.reload();\n        \x7d\n    \x7d;\n</script>\n").toList

/-- One posts-list entry, from the `format!` call in
`main.rs::render_with_layout`. -/
def listItemEntry (post : Post) : List Char :=
  ("<li><a href=\"/posts/".toList) ++ post.slug.toList ++
    ("\" class=\"text-blue no-underline\">".toList) ++ post.title.toList ++
    ("</a></li>".toList)

/-- The `list_items` accumulator loop of `main.rs::render_with_layout`
(`push_str` on a growing string is a left fold of appends). -/
def list_items (posts : List Post) : List Char :=
  posts.foldl (fun acc post => acc ++ listItemEntry post) []

/-- The banner placeholder literal. -/
def bannerPh : List Char := "\x7b\x7b banner \x7d\x7d".toList

/-- The content placeholder literal. -/
def contentPh : List Char := "\x7b\x7b content \x7d\x7d".toList

/-- The posts placeholder literal. -/
def postsPh : List Char := "\x7b\x7b posts \x7d\x7d".toList

/-- The closing body tag literal. -/
def bodyClose : List Char := "</body>".toList

/-- Embedding of `main.rs::render_with_layout`: three replace-all passes in
order (banner, content, posts), then in development mode the reload script is
spliced in front of every `</body>` occurrence. -/
def render_with_layout (layout banner content : List Char) (posts : List Post)
    (is_development : Bool) : List Char :=
  let li := list_items posts
  let page := replaceAll (replaceAll (replaceAll layout bannerPh banner)
    contentPh content) postsPh li
  if is_development then
    replaceAll page bodyClose (HOT_RELOAD_SCRIPT ++ bodyClose)
  else
    page

/-- The posts-list entry shape claimed by the spec for the homepage: no
`class` attribute on the anchor. -/
def claimedEntry (post : Post) : List Char :=
  ("<li><a href=\"/posts/".toList) ++ post.slug.toList ++ ("\">".toList) ++
    post.title.toList ++ ("</a></li>".toList)

/-- Spec-side posts list: the concatenation, in order, of exactly one entry
per post. -/
def joinEntries : List Post → List Char
  | [] => []
  | p :: ps => listItemEntry p ++ joinEntries ps

/-- The accumulator loop builds exactly the in-order concatenation of
entries. -/
theorem list_items_foldl_eq :
    ∀ (posts : List Post) (acc : List Char),
      posts.foldl (fun a post => a ++ listItemEntry post) acc =
        acc ++ joinEntries posts := by
  intro posts
  induction posts with
  | nil => intro acc; simp [joinEntries]
  | cons p ps ih =>
    intro acc
    simp only [List.foldl_cons, joinEntries]
    rw [ih, List.append_assoc]

/-- The posts list equals the spec-side join. -/
theorem list_items_eq_join (posts : List Post) :
    list_items posts = joinEntries posts := by
  simpa using list_items_foldl_eq posts []

/-- C8 counterexample: the homepage posts list is not made of entries of the
form printed in the claim. With layout consisting of just the posts
placeholder and one post (title `T`, slug `s`), the rendered page is the
single entry carrying the anchor's `class="text-blue no-underline"`
attribute, not the claimed bare anchor. -/
theorem C8_posts_entry_form_counterexample :
    render_with_layout postsPh [] [] [⟨"T", "s"⟩] false ≠ claimedEntry ⟨"T", "s"⟩ ∧
      render_with_layout postsPh [] [] [⟨"T", "s"⟩] false = listItemEntry ⟨"T", "s"⟩ := by
  constructor
  · decide
  · decide

/-- C8 amended: for every snapshot, the homepage renders the posts list as
the concatenation, in snapshot order, of exactly one
`<li><a href="/posts/slug" class="text-blue no-underline">title</a></li>`
entry per post, substitutes that list for the posts placeholder of the layout
(banner and home content filling their slots), and splices the reload script
in front of `</body>` iff development mode is on. -/
theorem C8_homepage_render_amended :
    (∀ (posts : List Post), list_items posts = joinEntries posts) ∧
      (∀ (layout banner content : List Char) (posts : List Post),
        render_with_layout layout banner content posts false =
          replaceAll (replaceAll (replaceAll layout bannerPh banner) contentPh
            content) postsPh (joinEntries posts)) ∧
      (∀ (layout banner content : List Char) (posts : List Post),
        render_with_layout layout banner content posts true =
          replaceAll (replaceAll (replaceAll (replaceAll layout bannerPh banner)
            contentPh content) postsPh (joinEntries posts)) bodyClose
            (HOT_RELOAD_SCRIPT ++ bodyClose)) := by
  refine ⟨list_items_eq_join, ?_, ?_⟩
  · intro layout banner content posts
    simp only [render_with_layout, list_items_eq_join, if_neg Bool.false_ne_true]
  · intro layout banner content posts
    simp [render_with_layout, list_items_eq_join]

set_option maxRecDepth 100000 in
/-- C10: template substitution is replace-all passes in the fixed order
banner, content, posts, then (in development) every `</body>` occurrence.
Consequently a posts placeholder arriving through the banner value is itself
substituted by the later posts pass, and the reload script is injected at
every `</body>` occurrence, including ones that originate from the content
value rather than from the layout. -/
theorem C10_render_pass_order_consequences :
    (∀ (content : List Char) (posts : List Post),
      render_with_layout bannerPh postsPh content posts false = list_items posts) ∧
      (∀ (banner : List Char),
        render_with_layout contentPh banner ("</body>X</body>".toList) [] true =
          HOT_RELOAD_SCRIPT ++ ("</body>X".toList) ++ HOT_RELOAD_SCRIPT ++
            ("</body>".toList)) := by
  constructor
  · intro content posts
    show replaceAll (replaceAll (replaceAll bannerPh bannerPh postsPh) contentPh
      content) postsPh (list_items posts) = list_items posts
    have h1 : replaceAll (replaceAll bannerPh bannerPh postsPh) contentPh content =
        postsPh := rfl
    rw [h1]
    show list_items posts ++ replaceGo 10 [] postsPh (list_items posts) =
      list_items posts
    simp [replaceGo]
  · intro banner
    have h1 : replaceAll contentPh bannerPh banner = contentPh := rfl
    show replaceAll (replaceAll (replaceAll (replaceAll contentPh bannerPh banner)
      contentPh ("</body>X</body>".toList)) postsPh (list_items [])) bodyClose
      (HOT_RELOAD_SCRIPT ++ bodyClose) = _
    rw [h1]
    decide

/-!
Content loader (`content_loader.rs::load_content`, Markdown homepage variant,
and `main.rs::load_content`, HTML homepage variant). External collaborators
are modelled at their interfaces: the filesystem is a lookup table plus a
posts-directory listing, `gray_matter`'s front-matter parse is a function
parameter returning either an error or `(data?, body)`, and the
pulldown-cmark HTML backend is a function parameter from the option set and
the input text. Everything in-repo — read order, required files, the option
sets, the error paths, the post-building loop — is concrete.
-/

/-- Front-matter record (`models.rs::FrontMatter` / `main.rs::FrontMatter`). -/
structure FrontMatter where
  title : String
  date : String
  slug : String
deriving DecidableEq, Repr

/-- Interface of `Matter::<YAML>::new().parse::<FrontMatter>`: an error, or
the decoded optional front matter together with the body text. -/
abbrev FMParse := String → Except String (Option FrontMatter × String)

/-- CommonMark extension set (`pulldown_cmark::Options` restricted to the
three extensions the program ever enables). -/
structure MdOptions where
  strikethrough : Bool
  tables : Bool
  math : Bool
deriving DecidableEq, Repr

/-- Embedding of `markdown.rs::markdown_options`: strikethrough, tables and
math are enabled. -/
def markdown_options : MdOptions := ⟨true, true, true⟩

/-- The option set built inline in `content_loader.rs::load_content` (and in
`main.rs::render_post`): strikethrough and tables only, no math. -/
def loader_options : MdOptions := ⟨true, true, false⟩

/-- Embedding of `markdown.rs::render_markdown_to_html` relative to an
abstract backend `cmark` standing for the external pulldown-cmark parse with
the given options plus the math-event-to-KaTeX mapping and HTML emission.
The in-repo part is concrete: the input is pre-processed by
`normalize_latex_delimiters` and parsed with `markdown_options`. -/
def render_markdown_to_html (cmark : MdOptions → String → String)
    (markdown : String) : String :=
  cmark markdown_options (normalizeStr markdown)

/-- Load-time failure: an I/O error carrying the failing path, or a panic
(the source calls `result.unwrap()` on the home front-matter parse, which
panics on a parse error and escapes `load_content`'s `io::Error` result). -/
inductive LoadErr where
  | io (path : String)
  | panic (msg : String)
deriving DecidableEq, Repr

/-- Filesystem at the loader's interface: file contents by path, and the
`read_dir("content/posts")` listing (`none` models a directory read error). -/
structure FS where
  files : List (String × String)
  postsDir : Option (List String)

/-- Reduction of monadic bind on a successful `Except`. -/
theorem exceptBind_ok {ε α β : Type} (a : α) (f : α → Except ε β) :
    (Except.ok a >>= f) = f a := rfl

/-- Reduction of monadic bind on a failed `Except`. -/
theorem exceptBind_error {ε α β : Type} (e : ε) (f : α → Except ε β) :
    ((Except.error e : Except ε α) >>= f) = Except.error e := rfl

/-- Reduction of functorial map on a successful `Except`. -/
theorem exceptMap_ok {ε α β : Type} (a : α) (f : α → β) :
    (f <$> (Except.ok a : Except ε α)) = Except.ok (f a) := rfl

/-- Reduction of functorial map on a failed `Except`. -/
theorem exceptMap_error {ε α β : Type} (e : ε) (f : α → β) :
    (f <$> (Except.error e : Except ε α)) = Except.error e := rfl

/-- Embedding of `tokio::fs::read_to_string`. -/
def readFile (fs : FS) (path : String) : Except LoadErr String :=
  match fs.files.lookup path with
  | some c => .ok c
  | none => .error (.io path)

/-- Embedding of `tokio::fs::read_dir("content/posts")` as the list of entry
file names. -/
def readPostsDir (fs : FS) : Except LoadErr (List String) :=
  match fs.postsDir with
  | some entries => .ok entries
  | none => .error (.io "content/posts")

/-- Portion of a file name after its last dot, if any dot occurs. -/
def afterLastDot : List Char → Option (List Char)
  | [] => none
  | c :: rest =>
    match afterLastDot rest with
    | some e => some e
    | none => if c = '.' then some rest else none

/-- Embedding of `std::path::Path::extension` on a directory-entry file name:
the part after the final dot, where a leading dot starts the stem (so
`.bashrc` has no and `a.md` has `md` as its file name suffix). -/
def fileSuffix (name : String) : Option String :=
  match name.toList with
  | '.' :: rest => (afterLastDot rest).map List.asString
  | cs => (afterLastDot cs).map List.asString

/-- The post built from one parse outcome, from the `match result` and the
`posts.push` in `load_content`: a parse error substitutes the sentinel
front matter (slug `Error`), while an absent front matter record falls back
to the `unwrap_or` defaults (slug `error`). -/
def mkPostFromParse (r : Except String (Option FrontMatter × String)) : Post :=
  let front_matter : Option FrontMatter :=
    match r with
    | .ok (data, _) => data
    | .error _ => some ⟨"Error", "Error", "Error"⟩
  { title := (front_matter.map (fun fm => fm.title)).getD "Error",
    slug := (front_matter.map (fun fm => fm.slug)).getD "error" }

/-- The `while let Some(entry)` loop over the posts directory: entries whose
name has suffix `md` are read (an I/O error aborts the whole load) and turned
into posts; other entries are skipped. -/
def loadPostsLoop (fs : FS) (parse : FMParse) :
    List String → Except LoadErr (List Post)
  | [] => .ok []
  | entry :: rest =>
    if fileSuffix entry = some "md" then do
      let file_content ← readFile fs ("content/posts/" ++ entry)
      let ps ← loadPostsLoop fs parse rest
      return mkPostFromParse (parse file_content) :: ps
    else loadPostsLoop fs parse rest

/-- The five snapshot fields returned by a successful load. -/
structure Snapshot where
  banner_html : String
  layout_html : String
  home_html : String
  not_found_html : String
  posts : List Post
deriving DecidableEq, Repr

/-- Embedding of `content_loader.rs::load_content` (Markdown homepage
variant): reads banner, layout, not_found, then `home.md`, unwraps its
front-matter parse (a parse error panics), renders the body with
`loader_options` through the abstract backend, then builds the post index. -/
def load_content_md (fs : FS) (parse : FMParse)
    (cmark : MdOptions → String → String) : Except LoadErr Snapshot := do
  let banner_html ← readFile fs "content/banner.html"
  let layout_html ← readFile fs "content/layout.html"
  let not_found_html ← readFile fs "content/not_found.html"
  let home_md_content ← readFile fs "content/home.md"
  let markdown_body ← match parse home_md_content with
    | .ok (_, content) => Except.ok content
    | .error e => Except.error (LoadErr.panic e)
  let home_html := cmark loader_options markdown_body
  let entries ← readPostsDir fs
  let posts ← loadPostsLoop fs parse entries
  return ⟨banner_html, layout_html, home_html, not_found_html, posts⟩

/-- Embedding of `main.rs::load_content` (HTML homepage variant): reads
banner, layout, `home.html`, not_found, then builds the post index; the home
file is served as-is with no markdown processing. -/
def load_content_html (fs : FS) (parse : FMParse) : Except LoadErr Snapshot := do
  let banner_html ← readFile fs "content/banner.html"
  let layout_html ← readFile fs "content/layout.html"
  let home_html ← readFile fs "content/home.html"
  let not_found_html ← readFile fs "content/not_found.html"
  let entries ← readPostsDir fs
  let posts ← loadPostsLoop fs parse entries
  return ⟨banner_html, layout_html, home_html, not_found_html, posts⟩

theorem readFile_cases (fs : FS) (p : String) :
    (∃ c, readFile fs p = .ok c) ∨ readFile fs p = .error (.io p) := by
  unfold readFile
  cases fs.files.lookup p with
  | none => exact Or.inr rfl
  | some c => exact Or.inl ⟨c, rfl⟩

theorem readPostsDir_cases (fs : FS) :
    (∃ es, readPostsDir fs = .ok es) ∨
      readPostsDir fs = .error (.io "content/posts") := by
  unfold readPostsDir
  cases fs.postsDir with
  | none => exact Or.inr rfl
  | some es => exact Or.inl ⟨es, rfl⟩

theorem loadPostsLoop_total (fs : FS) (parse : FMParse) :
    ∀ (entries : List String),
      (∀ e ∈ entries, fileSuffix e = some "md" →
        ∃ c, readFile fs ("content/posts/" ++ e) = .ok c) →
      ∃ ps, loadPostsLoop fs parse entries = .ok ps := by
  intro entries
  induction entries with
  | nil => intro _; exact ⟨[], rfl⟩
  | cons entry rest ih =>
    intro h
    obtain ⟨ps, hps⟩ := ih (fun e he hm => h e (List.mem_cons_of_mem _ he) hm)
    by_cases hmd : fileSuffix entry = some "md"
    · obtain ⟨c, hc⟩ := h entry (List.mem_cons_self _ _) hmd
      refine ⟨mkPostFromParse (parse c) :: ps, ?_⟩
      simp [loadPostsLoop, hmd, hc, hps, exceptBind_ok]
    · refine ⟨ps, ?_⟩
      simp [loadPostsLoop, hmd, hps]

theorem loadPostsLoop_mem (fs : FS) (parse : FMParse) :
    ∀ (entries : List String) (ps : List Post) (bad : String) (c : String),
      loadPostsLoop fs parse entries = .ok ps → bad ∈ entries →
      fileSuffix bad = some "md" →
      readFile fs ("content/posts/" ++ bad) = .ok c →
      mkPostFromParse (parse c) ∈ ps := by
  intro entries
  induction entries with
  | nil => intro ps bad c _ hmem; simp at hmem
  | cons entry rest ih =>
    intro ps bad c hok hmem hmd hread
    rcases List.mem_cons.mp hmem with heq | hmem2
    · subst heq
      simp only [loadPostsLoop, hmd, if_pos, hread, exceptBind_ok] at hok
      cases hrest : loadPostsLoop fs parse rest with
      | error e => simp [hrest, exceptBind_error] at hok
      | ok ps2 =>
        simp only [hrest, exceptBind_ok] at hok
        cases hok
        exact List.mem_cons_self _ _
    · by_cases hmd2 : fileSuffix entry = some "md"
      · simp only [loadPostsLoop, hmd2, if_pos] at hok
        cases hc : readFile fs ("content/posts/" ++ entry) with
        | error e => simp [hc, exceptBind_error] at hok
        | ok c2 =>
          simp only [hc, exceptBind_ok] at hok
          cases hrest : loadPostsLoop fs parse rest with
          | error e => simp [hrest, exceptBind_error] at hok
          | ok ps2 =>
            simp only [hrest, exceptBind_ok] at hok
            cases hok
            exact List.mem_cons_of_mem _ (ih ps2 bad c hrest hmem2 hmd hread)
      · simp only [loadPostsLoop, hmd2, if_neg] at hok
        exact ih ps bad c hok hmem2 hmd hread

theorem loadPostsLoop_error_shape (fs : FS) (parse : FMParse) :
    ∀ (entries : List String) (e : LoadErr),
      loadPostsLoop fs parse entries = .error e →
      ∃ en, en ∈ entries ∧ fileSuffix en = some "md" ∧
        e = .io ("content/posts/" ++ en) := by
  intro entries
  induction entries with
  | nil => intro e h; simp [loadPostsLoop] at h
  | cons entry rest ih =>
    intro e h
    by_cases hmd : fileSuffix entry = some "md"
    · simp only [loadPostsLoop, hmd, if_pos] at h
      cases hc : readFile fs ("content/posts/" ++ entry) with
      | error err =>
        simp only [hc, exceptBind_error] at h
        cases h
        rcases readFile_cases fs ("content/posts/" ++ entry) with ⟨c0, hok2⟩ | herr
        · rw [hok2] at hc
          cases hc
        · rw [herr] at hc
          injection hc with hc2
          exact ⟨entry, List.mem_cons_self _ _, hmd, hc2.symm⟩
      | ok c =>
        simp only [hc, exceptBind_ok] at h
        cases hrest : loadPostsLoop fs parse rest with
        | error err =>
          simp only [hrest, exceptBind_error] at h
          cases h
          obtain ⟨en, hen, hsuf, hshape⟩ := ih _ hrest
          exact ⟨en, List.mem_cons_of_mem _ hen, hsuf, hshape⟩
        | ok ps => simp [hrest, exceptBind_ok] at h
    · simp only [loadPostsLoop, hmd, if_neg] at h
      obtain ⟨en, hen, hsuf, hshape⟩ := ih _ h
      exact ⟨en, List.mem_cons_of_mem _ hen, hsuf, hshape⟩

theorem exceptPure {ε α : Type} (a : α) : (pure a : Except ε α) = Except.ok a := rfl

theorem load_content_md_ok_eq (fs : FS) (parse : FMParse)
    (cmark : MdOptions → String → String) (b l nf hm body : String)
    (d : Option FrontMatter) (entries : List String) (posts : List Post)
    (h1 : readFile fs "content/banner.html" = .ok b)
    (h2 : readFile fs "content/layout.html" = .ok l)
    (h3 : readFile fs "content/not_found.html" = .ok nf)
    (h4 : readFile fs "content/home.md" = .ok hm)
    (h5 : parse hm = .ok (d, body))
    (h6 : readPostsDir fs = .ok entries)
    (h7 : loadPostsLoop fs parse entries = .ok posts) :
    load_content_md fs parse cmark =
      .ok ⟨b, l, cmark loader_options body, nf, posts⟩ := by
  simp only [load_content_md, h1, h2, h3, h4, h5, h6, h7, exceptBind_ok, exceptPure]

theorem load_content_html_ok_eq (fs : FS) (parse : FMParse)
    (b l h nf : String) (entries : List String) (posts : List Post)
    (h1 : readFile fs "content/banner.html" = .ok b)
    (h2 : readFile fs "content/layout.html" = .ok l)
    (h3 : readFile fs "content/home.html" = .ok h)
    (h4 : readFile fs "content/not_found.html" = .ok nf)
    (h6 : readPostsDir fs = .ok entries)
    (h7 : loadPostsLoop fs parse entries = .ok posts) :
    load_content_html fs parse = .ok ⟨b, l, h, nf, posts⟩ := by
  simp only [load_content_html, h1, h2, h3, h4, h6, h7, exceptBind_ok, exceptPure]

/-- Required-file paths of the markdown-variant loader. -/
def mdFixedPaths : List String :=
  ["content/banner.html", "content/layout.html", "content/not_found.html",
    "content/home.md", "content/posts"]

theorem load_content_md_error_shape (fs : FS) (parse : FMParse)
    (cmark : MdOptions → String → String) (e : LoadErr)
    (h : load_content_md fs parse cmark = .error e) :
    (∃ p, e = .io p ∧ (p ∈ mdFixedPaths ∨
      ∃ entries en, fs.postsDir = some entries ∧ en ∈ entries ∧
        fileSuffix en = some "md" ∧ p = "content/posts/" ++ en)) ∨
    (∃ hm m, e = .panic m ∧ readFile fs "content/home.md" = .ok hm ∧
      parse hm = .error m) := by
  rcases readFile_cases fs "content/banner.html" with ⟨b, hb⟩ | hb
  case inr =>
    simp only [load_content_md, hb, exceptBind_error, Except.error.injEq] at h
    exact Or.inl ⟨_, h.symm, Or.inl (by simp [mdFixedPaths])⟩
  rcases readFile_cases fs "content/layout.html" with ⟨l, hl⟩ | hl
  case inr =>
    simp only [load_content_md, hb, hl, exceptBind_ok, exceptBind_error,
      Except.error.injEq] at h
    exact Or.inl ⟨_, h.symm, Or.inl (by simp [mdFixedPaths])⟩
  rcases readFile_cases fs "content/not_found.html" with ⟨nf, hnf⟩ | hnf
  case inr =>
    simp only [load_content_md, hb, hl, hnf, exceptBind_ok, exceptBind_error,
      Except.error.injEq] at h
    exact Or.inl ⟨_, h.symm, Or.inl (by simp [mdFixedPaths])⟩
  rcases readFile_cases fs "content/home.md" with ⟨hm, hhm⟩ | hhm
  case inr =>
    simp only [load_content_md, hb, hl, hnf, hhm, exceptBind_ok, exceptBind_error,
      Except.error.injEq] at h
    exact Or.inl ⟨_, h.symm, Or.inl (by simp [mdFixedPaths])⟩
  cases hp : parse hm with
  | error m =>
    simp only [load_content_md, hb, hl, hnf, hhm, hp, exceptBind_ok,
      exceptBind_error, Except.error.injEq] at h
    exact Or.inr ⟨hm, m, h.symm, hhm, hp⟩
  | ok pr =>
    obtain ⟨d, body⟩ := pr
    rcases readPostsDir_cases fs with ⟨entries, hes⟩ | hes
    case inr =>
      simp only [load_content_md, hb, hl, hnf, hhm, hp, hes, exceptBind_ok,
        exceptBind_error, Except.error.injEq] at h
      exact Or.inl ⟨_, h.symm, Or.inl (by simp [mdFixedPaths])⟩
    cases hps : loadPostsLoop fs parse entries with
    | ok posts =>
      simp only [load_content_md, hb, hl, hnf, hhm, hp, hes, hps, exceptBind_ok,
        exceptPure] at h
      cases h
    | error e2 =>
      simp only [load_content_md, hb, hl, hnf, hhm, hp, hes, hps, exceptBind_ok,
        exceptBind_error, Except.error.injEq] at h
      obtain ⟨en, hen, hsuf, hshape⟩ := loadPostsLoop_error_shape fs parse entries e2 hps
      have hesd : fs.postsDir = some entries := by
        unfold readPostsDir at hes
        cases hpd : fs.postsDir with
        | none => rw [hpd] at hes; cases hes
        | some es2 => rw [hpd] at hes; cases hes; rfl
      subst h
      exact Or.inl ⟨_, hshape, Or.inr ⟨entries, en, hesd, hen, hsuf, rfl⟩⟩

theorem load_content_html_error_shape (fs : FS) (parse : FMParse) (e : LoadErr)
    (h : load_content_html fs parse = .error e) :
    ∃ p, e = .io p := by
  rcases readFile_cases fs "content/banner.html" with ⟨b, hb⟩ | hb
  case inr =>
    simp only [load_content_html, hb, exceptBind_error, Except.error.injEq] at h
    exact ⟨_, h.symm⟩
  rcases readFile_cases fs "content/layout.html" with ⟨l, hl⟩ | hl
  case inr =>
    simp only [load_content_html, hb, hl, exceptBind_ok, exceptBind_error,
      Except.error.injEq] at h
    exact ⟨_, h.symm⟩
  rcases readFile_cases fs "content/home.html" with ⟨hh, hhh⟩ | hhh
  case inr =>
    simp only [load_content_html, hb, hl, hhh, exceptBind_ok, exceptBind_error,
      Except.error.injEq] at h
    exact ⟨_, h.symm⟩
  rcases readFile_cases fs "content/not_found.html" with ⟨nf, hnf⟩ | hnf
  case inr =>
    simp only [load_content_html, hb, hl, hhh, hnf, exceptBind_ok, exceptBind_error,
      Except.error.injEq] at h
    exact ⟨_, h.symm⟩
  rcases readPostsDir_cases fs with ⟨entries, hes⟩ | hes
  case inr =>
    simp only [load_content_html, hb, hl, hhh, hnf, hes, exceptBind_ok,
      exceptBind_error, Except.error.injEq] at h
    exact ⟨_, h.symm⟩
  cases hps : loadPostsLoop fs parse entries with
  | ok posts =>
    simp only [load_content_html, hb, hl, hhh, hnf, hes, hps, exceptBind_ok,
      exceptPure] at h
    cases h
  | error e2 =>
    simp only [load_content_html, hb, hl, hhh, hnf, hes, hps, exceptBind_ok,
      exceptBind_error, Except.error.injEq] at h
    obtain ⟨en, _, _, hshape⟩ := loadPostsLoop_error_shape fs parse entries e2 hps
    subst h
    exact ⟨_, hshape⟩

/-- A distinguishing model of the external CommonMark backend: enabling the
math extension observably changes the output (the repository's own tests in
`markdown.rs` rely on math input rendering to KaTeX HTML). -/
def demoCmark : MdOptions → String → String :=
  fun opts s => (if opts.math then "math:" else "plain:") ++ s

/-- A front-matter parse behavior for files without a front matter block:
no metadata, the body is the whole file (gray_matter's behavior when no
`---` fence is present). -/
def demoParseOk : FMParse := fun s => .ok (none, s)

/-- A front-matter parse behavior that always fails, modelling gray_matter on
malformed YAML. -/
def parseFail : FMParse := fun _ => .error "invalid front matter"

/-- A content directory with all fragments and `home.md` present and an empty
posts directory. -/
def fsMd : FS :=
  ⟨[("content/banner.html", "B"), ("content/layout.html", "L"),
    ("content/not_found.html", "N"), ("content/home.md", "H")], some []⟩

/-- A content directory providing only the HTML homepage variant
(`home.html`, no `home.md`). -/
def fsHtml : FS :=
  ⟨[("content/banner.html", "B"), ("content/layout.html", "L"),
    ("content/not_found.html", "N"), ("content/home.html", "H")], some []⟩

/-- C5 counterexample: the Markdown-variant loader does not satisfy the
claim. First, with every fragment readable and `home.md` present, a
front-matter parse failure on `home.md` aborts the load through the
`result.unwrap()` panic — an abort that is not an I/O error on any file.
Second, the same loader aborts with an I/O error when the directory provides
only `home.html`, so no single load function accepts both homepage
variants. -/
theorem C5_load_abort_counterexample :
    load_content_md fsMd parseFail demoCmark =
      .error (.panic "invalid front matter") ∧
    load_content_md fsHtml demoParseOk demoCmark =
      .error (.io "content/home.md") := by
  constructor
  · rfl
  · rfl

/-- C5 amended: the two loader variants accept one homepage variant each:
`content_loader.rs::load_content` requires `content/home.md` and
`main.rs::load_content` requires `content/home.html`. With its variant's
fragment files and the post files readable (and, for the Markdown variant,
`home.md`'s front matter parsing), each returns a snapshot; the Markdown
variant aborts only on an I/O error on a genuinely required file or on a
front-matter parse failure of `home.md`, and the HTML variant aborts only on
an I/O error. -/
theorem C5_loader_variants_amended :
    (∀ (fs : FS) (parse : FMParse) (cmark : MdOptions → String → String),
      (∃ c, readFile fs "content/banner.html" = .ok c) →
      (∃ c, readFile fs "content/layout.html" = .ok c) →
      (∃ c, readFile fs "content/not_found.html" = .ok c) →
      (∃ hm d body, readFile fs "content/home.md" = .ok hm ∧
        parse hm = .ok (d, body)) →
      (∃ entries, readPostsDir fs = .ok entries ∧
        ∀ e ∈ entries, fileSuffix e = some "md" →
          ∃ c, readFile fs ("content/posts/" ++ e) = .ok c) →
      ∃ snap, load_content_md fs parse cmark = .ok snap) ∧
    (∀ (fs : FS) (parse : FMParse),
      (∃ c, readFile fs "content/banner.html" = .ok c) →
      (∃ c, readFile fs "content/layout.html" = .ok c) →
      (∃ c, readFile fs "content/home.html" = .ok c) →
      (∃ c, readFile fs "content/not_found.html" = .ok c) →
      (∃ entries, readPostsDir fs = .ok entries ∧
        ∀ e ∈ entries, fileSuffix e = some "md" →
          ∃ c, readFile fs ("content/posts/" ++ e) = .ok c) →
      ∃ snap, load_content_html fs parse = .ok snap) ∧
    (∀ (fs : FS) (parse : FMParse) (cmark : MdOptions → String → String)
      (e : LoadErr), load_content_md fs parse cmark = .error e →
      (∃ p, e = .io p ∧ (p ∈ mdFixedPaths ∨
        ∃ entries en, fs.postsDir = some entries ∧ en ∈ entries ∧
          fileSuffix en = some "md" ∧ p = "content/posts/" ++ en)) ∨
      (∃ hm m, e = .panic m ∧ readFile fs "content/home.md" = .ok hm ∧
        parse hm = .error m)) ∧
    (∀ (fs : FS) (parse : FMParse) (e : LoadErr),
      load_content_html fs parse = .error e → ∃ p, e = .io p) := by
  refine ⟨?_, ?_, load_content_md_error_shape, load_content_html_error_shape⟩
  · intro fs parse cmark h1 h2 h3 h4 h5
    obtain ⟨b, hb⟩ := h1
    obtain ⟨l, hl⟩ := h2
    obtain ⟨nf, hnf⟩ := h3
    obtain ⟨hm, d, body, hhm, hp⟩ := h4
    obtain ⟨entries, hes, hreads⟩ := h5
    obtain ⟨posts, hps⟩ := loadPostsLoop_total fs parse entries hreads
    exact ⟨_, load_content_md_ok_eq fs parse cmark b l nf hm body d entries posts
      hb hl hnf hhm hp hes hps⟩
  · intro fs parse h1 h2 h3 h4 h5
    obtain ⟨b, hb⟩ := h1
    obtain ⟨l, hl⟩ := h2
    obtain ⟨hh, hhh⟩ := h3
    obtain ⟨nf, hnf⟩ := h4
    obtain ⟨entries, hes, hreads⟩ := h5
    obtain ⟨posts, hps⟩ := loadPostsLoop_total fs parse entries hreads
    exact ⟨_, load_content_html_ok_eq fs parse b l hh nf entries posts
      hb hl hhh hnf hes hps⟩

/-- C5 witness: the success directions applied at concrete content
directories (the Markdown variant at `fsMd`, the HTML variant at
`fsHtml`). -/
theorem C5_loader_variants_witness :
    (∃ snap, load_content_md fsMd demoParseOk demoCmark = .ok snap) ∧
    (∃ snap, load_content_html fsHtml demoParseOk = .ok snap) := by
  constructor
  · exact C5_loader_variants_amended.1 fsMd demoParseOk demoCmark
      ⟨"B", rfl⟩ ⟨"L", rfl⟩ ⟨"N", rfl⟩ ⟨"H", none, "H", rfl, rfl⟩
      ⟨[], rfl, by simp⟩
  · exact C5_loader_variants_amended.2.1 fsHtml demoParseOk
      ⟨"B", rfl⟩ ⟨"L", rfl⟩ ⟨"H", rfl⟩ ⟨"N", rfl⟩ ⟨[], rfl, by simp⟩

/-- A content directory containing one post file whose front matter is
malformed. -/
def fsBadPost : FS :=
  ⟨[("content/banner.html", "B"), ("content/layout.html", "L"),
    ("content/not_found.html", "N"), ("content/home.md", "HOME"),
    ("content/posts/bad.md", "not yaml")], some ["bad.md"]⟩

/-- A parse behavior that fails exactly on the malformed post file of
`fsBadPost` and finds no front matter elsewhere. -/
def parseBadPost : FMParse :=
  fun s => if s = "not yaml" then .error "invalid front matter" else .ok (none, s)

/-- Result of the sentinel substitution: a parse error yields the post with
title `Error` and slug `Error` (capital E: the sentinel's `slug` field is
mapped through, the lowercase `unwrap_or("error")` default applies only when
the parse succeeds with no front matter). -/
theorem mkPostFromParse_error (msg : String) :
    mkPostFromParse (.error msg) = ⟨"Error", "Error"⟩ := rfl

/-- C6 counterexample: a post whose front matter fails to parse is indexed
under slug `Error`, not under slug `error` as claimed. The load succeeds and
the sentinel post is the only index entry; no entry has slug `error`. -/
theorem C6_sentinel_slug_counterexample :
    load_content_md fsBadPost parseBadPost demoCmark =
      .ok ⟨"B", "L", "plain:HOME", "N", [⟨"Error", "Error"⟩]⟩ ∧
    (∀ p ∈ ([⟨"Error", "Error"⟩] : List Post), p.slug ≠ "error") := by
  constructor
  · rfl
  · decide

/-- C6 amended: when the front matter of a post file fails to parse during a
load, the sentinel FrontMatter record (`title="Error"`, `date="Error"`,
`slug="Error"`) is substituted, the post remains in the index under slug
`Error`, and the load still succeeds — one malformed file never prevents the
site from loading. -/
theorem C6_front_matter_failure_amended :
    ∀ (fs : FS) (parse : FMParse) (cmark : MdOptions → String → String)
      (b l nf hm body : String) (d : Option FrontMatter)
      (entries : List String) (posts : List Post) (bad content msg : String),
      readFile fs "content/banner.html" = .ok b →
      readFile fs "content/layout.html" = .ok l →
      readFile fs "content/not_found.html" = .ok nf →
      readFile fs "content/home.md" = .ok hm →
      parse hm = .ok (d, body) →
      readPostsDir fs = .ok entries →
      loadPostsLoop fs parse entries = .ok posts →
      bad ∈ entries → fileSuffix bad = some "md" →
      readFile fs ("content/posts/" ++ bad) = .ok content →
      parse content = .error msg →
      load_content_md fs parse cmark =
        .ok ⟨b, l, cmark loader_options body, nf, posts⟩ ∧
      (⟨"Error", "Error"⟩ : Post) ∈ posts := by
  intro fs parse cmark b l nf hm body d entries posts bad content msg
  intro hb hl hnf hhm hp hes hps hmem hsuf hread hbad
  refine ⟨load_content_md_ok_eq fs parse cmark b l nf hm body d entries posts
    hb hl hnf hhm hp hes hps, ?_⟩
  have := loadPostsLoop_mem fs parse entries posts bad content hps hmem hsuf hread
  rwa [hbad, mkPostFromParse_error] at this

/-- C6 witness: the amended theorem applied at the concrete directory with
one malformed post. -/
theorem C6_front_matter_failure_witness :
    load_content_md fsBadPost parseBadPost demoCmark =
      .ok ⟨"B", "L", demoCmark loader_options "HOME", "N", [⟨"Error", "Error"⟩]⟩ ∧
    (⟨"Error", "Error"⟩ : Post) ∈ ([⟨"Error", "Error"⟩] : List Post) :=
  C6_front_matter_failure_amended fsBadPost parseBadPost demoCmark
    "B" "L" "N" "HOME" "HOME" none ["bad.md"] [⟨"Error", "Error"⟩]
    "bad.md" "not yaml" "invalid front matter"
    rfl rfl rfl rfl rfl rfl rfl (by decide) (by decide) rfl rfl

/-- A content directory whose `home.md` body is the inline-math sample
`\(x^2\)` from the repository's own tests. -/
def fsMathHome : FS :=
  ⟨[("content/banner.html", ""), ("content/layout.html", ""),
    ("content/not_found.html", ""), ("content/home.md", "\\(x^2\\)")], some []⟩

/-- C7: the loader's inline rendering of `home.md` is not the Markdown
Renderer. `render_markdown_to_html` first rewrites the body through
`normalize_latex_delimiters` and parses with the math extension on;
`content_loader.rs::load_content` feeds the raw body to the parser with the
math extension off. At the failing body `\(x^2\)` the two pipelines hand
the backend different inputs (`\(x^2\)` versus `$x^2$`) under different
option sets, and any backend that distinguishes math (as pulldown-cmark
does, per the repository's tests) yields different homepage HTML. -/
theorem C7_loader_home_bypasses_markdown_renderer :
    normalizeStr "\\(x^2\\)" = "$x^2$" ∧
    loader_options.math = false ∧
    markdown_options.math = true ∧
    load_content_md fsMathHome demoParseOk demoCmark =
      .ok ⟨"", "", "plain:\\(x^2\\)", "", []⟩ ∧
    render_markdown_to_html demoCmark "\\(x^2\\)" = "math:$x^2$" ∧
    ("plain:\\(x^2\\)" : String) ≠ "math:$x^2$" := by
  refine ⟨by decide, rfl, rfl, rfl, ?_, by decide⟩
  show demoCmark markdown_options (normalizeStr "\\(x^2\\)") = "math:$x^2$"
  decide

/-!
File watcher (`hot_reload.rs::start_content_watcher`). The debouncer
callback receives a batch of debounced events; the embedding models one
callback invocation on a successful batch: the filter over the batch and the
number of refresh triggers sent through the channel (each trigger leads to
one `reload_content` call and one broadcast send in the receiving loop).
An event's kind is modelled by which of the notify crate's top-level
categories it falls in; a path is modelled by
`path.file_name().and_then(|n| n.to_str())`, an optional basename string.
-/

/-- Suffix test on char lists: `endsWithL s pat` is `str::ends_with`. -/
def endsWithL (s pat : List Char) : Bool :=
  startsWithL s.reverse pat.reverse

/-- The editor-temp-file test on one basename: starts with `.#` or ends with
`~` (`hot_reload.rs` line 63). -/
def isTempName (s : String) : Bool :=
  startsWithL s.toList ('.' :: '#' :: []) || endsWithL s.toList ('~' :: [])

/-- Top-level event-kind categories of `notify::EventKind`; `is_create`,
`is_modify`, `is_remove` test the corresponding constructor. -/
inductive EventKind where
  | any
  | access
  | create
  | modify
  | remove
  | other
deriving DecidableEq, Repr

/-- Embedding of `EventKind::is_create`. -/
def EventKind.is_create : EventKind → Bool
  | .create => true
  | _ => false

/-- Embedding of `EventKind::is_modify`. -/
def EventKind.is_modify : EventKind → Bool
  | .modify => true
  | _ => false

/-- Embedding of `EventKind::is_remove`. -/
def EventKind.is_remove : EventKind → Bool
  | .remove => true
  | _ => false

/-- One debounced event: its kind and, for each path,
`file_name().and_then(to_str)` (`none` when the path has no UTF-8
basename). -/
structure DebEvent where
  kind : EventKind
  paths : List (Option String)
deriving DecidableEq, Repr

/-- The per-event filter closure from `hot_reload.rs` lines 49-67: keep
events of a relevant kind whose paths include no editor temp file;
`map_or(false, ..)` makes a missing basename non-temp. -/
def relevantEvent (event : DebEvent) : Bool :=
  let is_relevant_kind := event.kind.is_modify || event.kind.is_create ||
    event.kind.is_remove
  if !is_relevant_kind then false
  else
    let is_temp_file := event.paths.any (fun path =>
      (path.map isTempName).getD false)
    !is_temp_file

/-- Number of refresh triggers the callback emits for one successful batch:
one `blocking_send(())` iff the filtered batch is nonempty
(`hot_reload.rs` lines 69-74). -/
def watcherTriggers (events : List DebEvent) : Nat :=
  if (events.filter relevantEvent).isEmpty then 0 else 1

/-- The claim's acceptance predicate for a single event, written from the
claim's words: the kind is create, modify, or remove, and none of the paths
has a basename starting with `.#` or ending with `~`. -/
def claimAccepted (event : DebEvent) : Prop :=
  (event.kind = .create ∨ event.kind = .modify ∨ event.kind = .remove) ∧
    ∀ p ∈ event.paths, ∀ s, p = some s → isTempName s = false

instance (event : DebEvent) : Decidable (claimAccepted event) := by
  unfold claimAccepted
  infer_instance

/-- The source filter agrees with the claim's acceptance predicate. -/
theorem relevantEvent_iff_claimAccepted (event : DebEvent) :
    relevantEvent event = true ↔ claimAccepted event := by
  obtain ⟨kind, paths⟩ := event
  constructor
  · intro h
    simp only [relevantEvent, Bool.not_eq_true'] at h
    by_cases hk : (kind.is_modify || kind.is_create || kind.is_remove) = true
    · rw [if_neg (by simp [hk])] at h
      simp only [Bool.not_eq_true', List.any_eq_false] at h
      constructor
      · cases kind <;> simp_all [EventKind.is_modify, EventKind.is_create,
          EventKind.is_remove]
      · intro p hp s hs
        have := h p hp
        rw [hs] at this
        simpa using this
    · rw [if_pos (by simpa using hk)] at h
      cases h
  · intro ⟨hk, hp⟩
    have hkind : (kind.is_modify || kind.is_create || kind.is_remove) = true := by
      rcases hk with h | h | h <;> subst h <;> rfl
    simp only [relevantEvent, hkind, Bool.not_true, Bool.false_eq_true,
      if_false, Bool.not_eq_true', List.any_eq_false]
    intro p hpmem
    cases p with
    | none => simp
    | some s =>
      have := hp (some s) hpmem s rfl
      simpa using this

/-- C4: one callback invocation on a debounced batch produces exactly one
refresh trigger (hence one broadcast) iff the batch contains an event whose
kind is create, modify or remove and none of whose paths names an editor
temp file; a batch of only rejected events produces zero triggers. -/
theorem C4_watcher_trigger_count :
    ∀ (events : List DebEvent),
      (watcherTriggers events = 1 ↔ ∃ e ∈ events, claimAccepted e) ∧
      (watcherTriggers events = 0 ↔ ∀ e ∈ events, ¬claimAccepted e) := by
  intro events
  have hfilter : (events.filter relevantEvent).isEmpty = true ↔
      ∀ e ∈ events, ¬claimAccepted e := by
    rw [List.isEmpty_iff, List.filter_eq_nil_iff]
    constructor
    · intro h e he hacc
      exact h e he ((relevantEvent_iff_claimAccepted e).mpr hacc)
    · intro h e he hrel
      exact h e he ((relevantEvent_iff_claimAccepted e).mp hrel)
  constructor
  · constructor
    · intro h
      by_cases hemp : (events.filter relevantEvent).isEmpty = true
      · simp [watcherTriggers, hemp] at h
      · have hne : events.filter relevantEvent ≠ [] := by
          intro hnil
          exact hemp (by simp [hnil])
        rcases List.exists_mem_of_ne_nil _ hne with ⟨e, he⟩
        have hrel := List.of_mem_filter he
        exact ⟨e, List.mem_of_mem_filter he,
          (relevantEvent_iff_claimAccepted e).mp hrel⟩
    · intro ⟨e, he, hacc⟩
      have hne : ¬(events.filter relevantEvent).isEmpty = true := by
        intro hemp
        exact (hfilter.mp hemp) e he hacc
      simp [watcherTriggers, hne]
  · constructor
    · intro h
      apply hfilter.mp
      by_cases hemp : (events.filter relevantEvent).isEmpty = true
      · exact hemp
      · simp [watcherTriggers, hemp] at h
    · intro h
      simp [watcherTriggers, hfilter.mpr h]

/-- C4 witness: a batch with one modify event on `content/home.md` triggers
once; a batch with only an Emacs lock-file event and a metadata-only event
triggers zero times, via the two directions of the theorem. -/
theorem C4_watcher_trigger_witness :
    watcherTriggers [⟨.modify, [some "home.md"]⟩] = 1 ∧
      watcherTriggers
        [⟨.modify, [some ".#home.md"]⟩, ⟨.access, [some "home.md"]⟩] = 0 := by
  constructor
  · exact (C4_watcher_trigger_count [⟨.modify, [some "home.md"]⟩]).1.mpr
      ⟨⟨.modify, [some "home.md"]⟩, by decide, by decide⟩
  · exact (C4_watcher_trigger_count
      [⟨.modify, [some ".#home.md"]⟩, ⟨.access, [some "home.md"]⟩]).2.mpr
      (by decide)

/-!
Reload subscription endpoint (`hot_reload.rs::handle_socket`, duplicated in
`main.rs`): after the upgrade the session subscribes to the broadcaster,
awaits one `recv`, sends the single text frame `reload` when the receive
succeeds (a failed send is only logged), and closes by returning.
-/

/-- Outcome of `broadcast::Receiver::recv().await`: a signal, a closed
channel, or a lag report. -/
inductive RecvResult where
  | ok
  | closed
  | lagged
deriving DecidableEq, Repr

/-- Embedding of `Result::is_ok` on the receive outcome. -/
def RecvResult.is_ok : RecvResult → Bool
  | .ok => true
  | _ => false

/-- Observable result of one subscription session: the textual frames the
server sent, and whether the session was closed. -/
structure SessionRun where
  frames : List String
  closed : Bool
deriving DecidableEq, Repr

/-- Embedding of `handle_socket`: one receive; on success exactly one
`Message::Text("reload")` send attempt; the function then returns, closing
the session. -/
def handle_socket (recv : RecvResult) : SessionRun :=
  if recv.is_ok then ⟨["reload"], true⟩ else ⟨[], true⟩

/-- C9: for every reload-subscription session, when a change signal is
received the session sends exactly one textual frame, with payload `reload`,
and then closes; it never sends more than one frame and never sends any
other payload. -/
theorem C9_reload_session_protocol :
    ∀ (recv : RecvResult),
      (handle_socket recv).closed = true ∧
      (handle_socket recv).frames.length ≤ 1 ∧
      (∀ f ∈ (handle_socket recv).frames, f = "reload") ∧
      (recv = .ok → (handle_socket recv).frames = ["reload"]) := by
  intro recv
  cases recv <;> simp [handle_socket, RecvResult.is_ok]

/-- C9 witness: the session that receives a signal sends the single `reload`
frame and closes. -/
theorem C9_reload_session_witness :
    (handle_socket .ok).frames = ["reload"] ∧ (handle_socket .ok).closed = true :=
  ⟨(C9_reload_session_protocol .ok).2.2.2 rfl, (C9_reload_session_protocol .ok).1⟩

/-!
Content store (`state.rs::AppState` / `main.rs::AppState`): five separate
`RwLock`-guarded fields, written one at a time by `reload_content` (banner,
layout, home, not_found, posts, in that order) and read one at a time by the
handlers (`homepage` reads banner, layout, home, posts). Values are
abstracted by the generation of the load that wrote them: generation 0 is
the initial load, generation `g` the refresh being installed. Each lock is
held for a single field access, so any interleaving of these single-field
atomic accesses is a possible execution; `execOps` runs one such schedule
and records what each read observed.
-/

/-- The five snapshot fields of `AppState`. -/
inductive Fld where
  | banner
  | layout
  | home
  | notFound
  | posts
deriving DecidableEq, Repr

/-- Store contents, one load generation per field. -/
def StoreState : Type := Fld → Nat

/-- The store after the initial load (generation 0 everywhere). -/
def initStore : StoreState := fun _ => 0

/-- Overwrite one field, as one `*field.write().await = value`. -/
def setF (s : StoreState) (f : Fld) (g : Nat) : StoreState :=
  fun f2 => if f2 = f then g else s f2

/-- A single lock-guarded field access: one write or one read. -/
inductive SOp where
  | write (f : Fld) (gen : Nat)
  | read (f : Fld)
deriving DecidableEq, Repr

/-- Run a schedule of field accesses, returning the final store and the
generation observed by each read, in order. -/
def execOps : StoreState → List SOp → StoreState × List (Fld × Nat)
  | s, [] => (s, [])
  | s, .write f g :: rest => execOps (setF s f g) rest
  | s, .read f :: rest =>
    let r := execOps s rest
    (r.1, (f, s f) :: r.2)

/-- The read observations of a schedule started from the initial store. -/
def observations (sched : List SOp) : List (Fld × Nat) :=
  (execOps initStore sched).2

/-- The write sequence of `reload_content` installing load generation `g`:
banner, layout, home, not_found, posts, each under its own write lock. -/
def reloadWrites (g : Nat) : List SOp :=
  [.write .banner g, .write .layout g, .write .home g, .write .notFound g,
    .write .posts g]

/-- The read sequence of the `homepage` handler: banner, layout, home,
posts, each under its own read lock. -/
def homepageReads : List SOp :=
  [.read .banner, .read .layout, .read .home, .read .posts]

/-- Schedules that interleave two op sequences, preserving the order of
each. -/
def interleaves : List SOp → List SOp → List SOp → Bool
  | as, bs, [] => as.isEmpty && bs.isEmpty
  | [], [], _ :: _ => false
  | [], b :: bs, x :: xs => b == x && interleaves [] bs xs
  | a :: as, [], x :: xs => a == x && interleaves as [] xs
  | a :: as, b :: bs, x :: xs =>
    (a == x && interleaves as (b :: bs) xs) ||
      (b == x && interleaves (a :: as) bs xs)

/-- Every op of an interleaved schedule comes from one of the two
sequences. -/
theorem interleaves_mem :
    ∀ (cs as bs : List SOp), interleaves as bs cs = true →
      ∀ x ∈ cs, x ∈ as ∨ x ∈ bs := by
  intro cs
  induction cs with
  | nil => intro as bs _ x hx; simp at hx
  | cons c cs2 ih =>
    intro as bs h x hx
    rcases List.mem_cons.mp hx with rfl | hx2
    · cases as with
      | nil =>
        cases bs with
        | nil => simp [interleaves] at h
        | cons b bs2 =>
          simp only [interleaves, Bool.and_eq_true, beq_iff_eq] at h
          exact Or.inr (h.1 ▸ List.mem_cons_self _ _)
      | cons a as2 =>
        cases bs with
        | nil =>
          simp only [interleaves, Bool.and_eq_true, beq_iff_eq] at h
          exact Or.inl (h.1 ▸ List.mem_cons_self _ _)
        | cons b bs2 =>
          simp only [interleaves, Bool.or_eq_true, Bool.and_eq_true,
            beq_iff_eq] at h
          rcases h with ⟨ha, _⟩ | ⟨hb, _⟩
          · exact Or.inl (ha ▸ List.mem_cons_self _ _)
          · exact Or.inr (hb ▸ List.mem_cons_self _ _)
    · cases as with
      | nil =>
        cases bs with
        | nil => simp [interleaves] at h
        | cons b bs2 =>
          simp only [interleaves, Bool.and_eq_true, beq_iff_eq] at h
          rcases ih [] bs2 h.2 x hx2 with h3 | h3
          · exact Or.inl h3
          · exact Or.inr (List.mem_cons_of_mem _ h3)
      | cons a as2 =>
        cases bs with
        | nil =>
          simp only [interleaves, Bool.and_eq_true, beq_iff_eq] at h
          rcases ih as2 [] h.2 x hx2 with h3 | h3
          · exact Or.inl (List.mem_cons_of_mem _ h3)
          · exact Or.inr h3
        | cons b bs2 =>
          simp only [interleaves, Bool.or_eq_true, Bool.and_eq_true,
            beq_iff_eq] at h
          rcases h with ⟨_, h2⟩ | ⟨_, h2⟩
          · rcases ih as2 (b :: bs2) h2 x hx2 with h3 | h3
            · exact Or.inl (List.mem_cons_of_mem _ h3)
            · exact Or.inr h3
          · rcases ih (a :: as2) bs2 h2 x hx2 with h3 | h3
            · exact Or.inl h3
            · exact Or.inr (List.mem_cons_of_mem _ h3)

/-- When every write in a schedule writes generation 0 or `g` and the store
starts within that range, every read observes generation 0 or `g`. -/
theorem execOps_obs_range (g : Nat) :
    ∀ (ops : List SOp) (s : StoreState),
      (∀ f g2, SOp.write f g2 ∈ ops → g2 = 0 ∨ g2 = g) →
      (∀ f, s f = 0 ∨ s f = g) →
      ∀ o ∈ (execOps s ops).2, o.2 = 0 ∨ o.2 = g := by
  intro ops
  induction ops with
  | nil => intro s _ _ o ho; simp [execOps] at ho
  | cons op rest ih =>
    intro s hw hs o ho
    cases op with
    | write f g2 =>
      simp only [execOps] at ho
      refine ih (setF s f g2)
        (fun f3 g3 hmem => hw f3 g3 (List.mem_cons_of_mem _ hmem)) ?_ o ho
      intro f3
      unfold setF
      by_cases hf : f3 = f
      · simp only [hf, if_pos rfl]
        exact hw f g2 (List.mem_cons_self _ _)
      · simp only [if_neg hf]
        exact hs f3
    | read f =>
      simp only [execOps] at ho
      rcases List.mem_cons.mp ho with rfl | ho2
      · exact hs f
      · exact ih s (fun f3 g3 hmem => hw f3 g3 (List.mem_cons_of_mem _ hmem))
          hs o ho2

/-- The schedule in which the refresher has installed the new banner when
the homepage handler runs, all other fields still holding the old load. -/
def mixedSchedule : List SOp :=
  [.write .banner 1, .read .banner, .read .layout, .read .home, .read .posts,
    .write .layout 1, .write .home 1, .write .notFound 1, .write .posts 1]

/-- C1 counterexample: with five per-field locks there is an interleaving of
one refresh with one homepage request in which the handler reads the new
banner but the old layout, home and posts — a render from mixed loads, which
the claim says never happens. -/
theorem C1_snapshot_mixing_counterexample :
    interleaves (reloadWrites 1) homepageReads mixedSchedule = true ∧
      observations mixedSchedule =
        [(.banner, 1), (.layout, 0), (.home, 0), (.posts, 0)] ∧
      ¬(∀ o1 ∈ observations mixedSchedule, ∀ o2 ∈ observations mixedSchedule,
        o1.2 = o2.2) := by
  refine ⟨by decide, by decide, ?_⟩
  intro h
  have := h (Fld.banner, 1) (by decide) (Fld.layout, 0) (by decide)
  simp at this

/-- C1 amended: during a refresh a concurrent homepage reader may observe a
mixture of fields from the old and the new load; what does hold is per-field
atomicity: in every interleaving of one refresh installing generation `g`
with one homepage request, each field read returns a value written by a
completed load — the old one or the new one — and never a torn value. -/
theorem C1_per_field_consistency_amended :
    ∀ (g : Nat) (sched : List SOp),
      interleaves (reloadWrites g) homepageReads sched = true →
      ∀ o ∈ observations sched, o.2 = 0 ∨ o.2 = g := by
  intro g sched hil o ho
  refine execOps_obs_range g sched initStore ?_ (fun _ => Or.inl rfl) o ho
  intro f g2 hmem
  rcases interleaves_mem sched (reloadWrites g) homepageReads hil _ hmem with h | h
  · simp only [reloadWrites, List.mem_cons, List.not_mem_nil, or_false] at h
    rcases h with h | h | h | h | h <;> · injection h with _ hg; exact Or.inr hg
  · simp [homepageReads] at h

/-- C1 witness: the amended theorem applied to the concrete mixed schedule
(generation 1), whose four observations all carry generation 0 or 1. -/
theorem C1_per_field_consistency_witness :
    interleaves (reloadWrites 1) homepageReads mixedSchedule = true ∧
      ∀ o ∈ observations mixedSchedule, o.2 = 0 ∨ o.2 = 1 :=
  ⟨by decide, C1_per_field_consistency_amended 1 mixedSchedule (by decide)⟩

end BlogServer
